import Mathlib

/-!
Verification of the bitmap-compression and record-store engine of the
floor-directory firmware (`src/Storage.cpp`, `src/Storage.h`).

The development shallowly embeds the storage component:

* bit addressing: `translate` (`_translate`), `bitset` (`_bitset`);
* the scanline run engine: `findPixel`, the per-row encoder loop of
  `Storage::encodeBitmap` (`encodeRowAux`);
* the mapping store: the character-by-character parser of
  `Storage::getMappingList`, `Storage::commitMappingList`,
  `Storage::initMappingList`, `Storage::findFromFloorNo`,
  `Storage::setFloorMapping`, `Storage::getFloorMapping`;
* the single-handle session file layer: `fileOpenToRead`,
  `fileOpenToWrite`, `fileWriteData`, `fileSize`;
* the derived-artifact cache: `readBitmap` / `getBitmap` over an explicit
  file-system state.

Machine integers are modelled as `Nat`/`Int` with explicit wrap where it
matters; fallible reads return `Option`; the unbounded scan of the source's
`findPixel` is modelled with explicit fuel, and a read outside the row
buffer is reported as `ScanResult.oob` (the source would read adjacent
memory there, see the comment "Might overflow!" on `_bitset`).
-/

set_option maxRecDepth 100000

namespace Storage

/-- Bit-address permutation `_translate` of `Storage.cpp`:
`((x / 8) * 2 + 1) * 8 - 1 - x`.  Subtraction never truncates: for
`x = 8*k + j` with `j < 8` the value is `8*k + (7 - j)`. -/
def translate (x : Nat) : Nat :=
  ((x / 8) * 2 + 1) * 8 - 1 - x

/-- `_bitset` of `Storage.cpp`: bit `index % 8` of byte `index / 8` of the
row buffer.  The source indexes blindly (`data[index / 8]`); a byte index
at or beyond the buffer length is an out-of-bounds read, modelled `none`. -/
def bitset (data : List Nat) (index : Nat) : Option Bool :=
  if index / 8 < data.length then
    some (Nat.testBit (data.getD (index / 8) 0) (index % 8))
  else
    none

/-- Outcome of the `Storage::findPixel` scan loop.  The source loop has no
bound at all: it either finds a matching bit (`found`), or walks off the
row buffer (`oob`, an out-of-bounds `_bitset` read in the source), or the
modelling fuel runs out (`fuelOut`, standing for an arbitrarily long scan
through adjacent memory).  There is no "no run within the row" outcome,
because the source has none. -/
inductive ScanResult where
  | found : Nat → ScanResult
  | oob : Nat → ScanResult
  | fuelOut : ScanResult
deriving DecidableEq

/-- `Storage::findPixel`: starting at `index`, advance while the translated
bit differs from `pixel_state`.  Direct embedding of
`while (_bitset(bitmap.data, _translate(index)) != pixel_state) ++index;`
with explicit fuel for the unbounded loop. -/
def findPixel (data : List Nat) (state : Bool) (index : Nat) (fuel : Nat) :
    ScanResult :=
  match fuel with
  | 0 => ScanResult.fuelOut
  | fuel + 1 =>
    match bitset data (translate index) with
    | none => ScanResult.oob index
    | some b =>
      if b = state then ScanResult.found index
      else findPixel data state (index + 1) fuel

/-- One unfolding step of `findPixel` at positive fuel. -/
theorem findPixel_step (data : List Nat) (state : Bool) (index fuel : Nat) :
    findPixel data state index (fuel + 1) =
      match bitset data (translate index) with
      | none => ScanResult.oob index
      | some b =>
        if b = state then ScanResult.found index
        else findPixel data state (index + 1) fuel := rfl

/-- Termination state of the per-row encoder loop of `Storage::encodeBitmap`. -/
inductive EncStatus where
  | ok : EncStatus
  | oob : EncStatus
  | fuelOut : EncStatus
deriving DecidableEq

/-- The per-row loop of `Storage::encodeBitmap`:
`while (start < width) { findScanline(row, start, end, offset);
if (start < end && start < width && end <= width) write(start, end);
offset = end + 1; }`.
`findScanline` is `start := findPixel true offset; end := findPixel false
(start+1)` over the freshly loaded row buffer `data`.  Emitted `(start, end)`
records accumulate in `acc`; a scan that leaves the buffer aborts with
`EncStatus.oob` (the source would keep reading adjacent memory). -/
def encodeRowAux (data : List Nat) (width innerFuel : Nat) :
    Nat → Nat → Nat → List (Nat × Nat) → List (Nat × Nat) × EncStatus
  | 0, _, _, acc => (acc.reverse, EncStatus.fuelOut)
  | fuel + 1, offset, start, acc =>
    if start < width then
      match findPixel data true offset innerFuel with
      | ScanResult.found s =>
        match findPixel data false (s + 1) innerFuel with
        | ScanResult.found e =>
          let acc2 := if s < e ∧ s < width ∧ e ≤ width then (s, e) :: acc else acc
          encodeRowAux data width innerFuel fuel (e + 1) s acc2
        | ScanResult.oob _ => (acc.reverse, EncStatus.oob)
        | ScanResult.fuelOut => (acc.reverse, EncStatus.fuelOut)
      | ScanResult.oob _ => (acc.reverse, EncStatus.oob)
      | ScanResult.fuelOut => (acc.reverse, EncStatus.fuelOut)
    else (acc.reverse, EncStatus.ok)

/-- Reconstruction of a row from emitted records: pixel `i` is set exactly
when `i` lies in some emitted interval `[start, end)` (the spec's decoding
contract for the companion-file records). -/
def reconstructRow (recs : List (Nat × Nat)) (width : Nat) : List Bool :=
  (List.range width).map (fun i => recs.any (fun sr => decide (sr.1 ≤ i ∧ i < sr.2)))

/-- The logical pixel values of a loaded row of `width` pixels: pixel `i`
is the translated bit `translate i` of the row buffer, read exactly as
`findPixel` reads it. -/
def logicalRow (data : List Nat) (width : Nat) : List Bool :=
  (List.range width).map (fun i => (bitset data (translate i)).getD false)

/-- Row buffer produced by `Storage::readMono40` for a width-8, height-1
monochrome bitmap whose single row byte is `0xFF` (all eight pixels set):
the allocation is `width / 8 + 1 = 2` bytes, only the first is filled from
the file, and the trailing byte keeps whatever the allocator left there —
here the concrete uninitialized value `0x80`. -/
def rowAllSet : List Nat := [255, 128]

/-- C1: the round-trip claim fails on the code.  On an all-set width-8 row
whose uninitialized trailing buffer byte is `0x80`, the run search for the
run end crosses the row boundary, finds `end = 9 > width`, rejects the
record, and the encoder then scans off the two-byte buffer; it emits no
record at all, so reconstructing the row from the emitted records gives an
all-clear row instead of the original all-set row. -/
theorem encodeRow_allset_roundtrip_fails :
    logicalRow rowAllSet 8 = List.replicate 8 true ∧
    encodeRowAux rowAllSet 8 32 32 0 0 [] = ([], EncStatus.oob) ∧
    reconstructRow [] 8 ≠ logicalRow rowAllSet 8 := by
  decide

/-- C2: `findPixel` does not stay below the declared row width.  Searching
the all-clear one-byte row buffer (width 8) for a set pixel, the scan
reaches logical index 8, whose translated bit lives in byte 1 — outside
the `ceil(width / 8) = 1` byte row buffer — no matter how much fuel the
loop is given; no "no run found" outcome is ever produced. -/
theorem findPixel_scans_past_width (n : Nat) :
    findPixel [0] true 0 (n + 9) = ScanResult.oob 8 := by
  have step : ∀ i m : Nat, i < 8 →
      findPixel [0] true i (m + 1) = findPixel [0] true (i + 1) m := by
    intro i m hi
    rw [findPixel_step]
    have hb : bitset [0] (translate i) = some false := by
      have ht : translate i = 7 - i := by
        unfold translate
        omega
      have hd : (7 - i) / 8 = 0 := by omega
      simp [bitset, ht, hd]
    rw [hb]
    simp
  have h8 : bitset [0] (translate 8) = none := by
    have ht : translate 8 = 15 := by decide
    simp [bitset, ht]
  have c0 : n + 9 = (n + 8) + 1 := by omega
  rw [c0, step 0 (n + 8) (by omega)]
  rw [show n + 8 = (n + 7) + 1 from by omega, step 1 (n + 7) (by omega)]
  rw [show n + 7 = (n + 6) + 1 from by omega, step 2 (n + 6) (by omega)]
  rw [show n + 6 = (n + 5) + 1 from by omega, step 3 (n + 5) (by omega)]
  rw [show n + 5 = (n + 4) + 1 from by omega, step 4 (n + 4) (by omega)]
  rw [show n + 4 = (n + 3) + 1 from by omega, step 5 (n + 3) (by omega)]
  rw [show n + 3 = (n + 2) + 1 from by omega, step 6 (n + 2) (by omega)]
  rw [show n + 2 = (n + 1) + 1 from by omega, step 7 (n + 1) (by omega)]
  rw [show n + 1 = n + 1 from rfl, findPixel_step, h8]

/-- The permutation `translate` maps indices below a multiple of 8 to
indices below it. -/
theorem translate_lt (w x : Nat) (h : 8 ∣ w) (hx : x < w) : translate x < w := by
  unfold translate
  omega

/-- `translate` is an involution: reversing the bit order inside each byte
twice restores the original index. -/
theorem translate_translate (x : Nat) : translate (translate x) = x := by
  unfold translate
  omega

/-- C5: for every row width `w` that is a multiple of 8, the bit-address
permutation `translate x = ((x / 8) * 2 + 1) * 8 - 1 - x` of `_translate`
is a bijection from `[0, w)` onto `[0, w)`, so decoding through the same
bit addressing recovers the original bit order. -/
theorem translate_bijOn_of_dvd (w : Nat) (h : 8 ∣ w) :
    Set.BijOn translate (Set.Iio w) (Set.Iio w) := by
  refine ⟨?_, ?_, ?_⟩
  · intro x hx
    exact translate_lt w x h hx
  · intro a _ b _ hab
    have := congrArg translate hab
    rwa [translate_translate, translate_translate] at this
  · intro y hy
    exact ⟨translate y, translate_lt w y h hy, translate_translate y⟩

/-- Witness for C5 at the concrete width 16. -/
theorem translate_bijOn_witness :
    (8 ∣ 16) ∧ Set.BijOn translate (Set.Iio 16) (Set.Iio 16) :=
  ⟨by decide, translate_bijOn_of_dvd 16 (by decide)⟩

/-- One floor↔bitmap record (`Mapping` of `Storage.h`): `floorNo[3]`,
`bitmapName[20]`, `bitmapName2[20]`, read back as C strings. -/
structure Mapping where
  floorNo : String
  bitmapName : String
  bitmapName2 : String
deriving DecidableEq

/-- `MappingList` of `Storage.h`: the fixed 32-entry table plus the derived
`n_mapped_floors` count. -/
structure MappingList where
  n_mapped_floors : Int
  map_list : List Mapping
deriving DecidableEq

/-- Content of a C character buffer read as a string: characters up to the
first NUL. -/
def cstr (b : List Char) : String := String.mk (b.takeWhile (fun c => c ≠ '\x00'))

/-- Write one character at an index of a fixed-size C buffer. -/
def bufW (b : List Char) (i : Nat) (c : Char) : List Char := b.set i c

/-- Initial `char floor_no[3] = "$"` buffer: remaining cells zero-filled. -/
def floorBuf0 : List Char := ['$', '\x00', '\x00']

/-- Initial `char bmp_name[20] = "$"` buffer. -/
def nameBuf0 : List Char := '$' :: List.replicate 19 '\x00'

/-- Update one entry of the in-memory table in place
(`this->mappinglist.map_list[list_itr]`); an index past the 32 entries is
left as a no-op (the source would write out of bounds there, which no
input in this development reaches). -/
def tblSet (t : List Mapping) (i : Nat) (f : Mapping → Mapping) : List Mapping :=
  t.set i (f (t.getD i ⟨"", "", ""⟩))

/-- Parser state of the character-by-character loop of
`Storage::getMappingList`: the three field buffers, the shared write
counter `ctr`, the two comma flags, the table being overwritten in place,
the record index `list_itr` and the running `mapped_floor_count`. -/
structure ParseSt where
  fn : List Char
  b1 : List Char
  b2 : List Char
  c1 : Bool
  c2 : Bool
  ctr : Nat
  table : List Mapping
  itr : Nat
  count : Nat

/-- First conditional chain of the `getMappingList` loop body: the
separator actions.  At the first comma the floor number is terminated and
copied into the table, at the second comma the first bitmap name, at a
line break the second bitmap name; the line break also updates
`mapped_floor_count` (a record counts when either name buffer is
non-empty) and advances `list_itr`. -/
def stepA (c : Char) (st : ParseSt) : ParseSt :=
  if c = ',' ∧ ¬st.c1 ∧ ¬st.c2 then
    let fn2 := bufW st.fn st.ctr '\x00'
    { st with
      fn := fn2,
      table := tblSet st.table st.itr (fun m => { m with floorNo := cstr fn2 }),
      c1 := true, ctr := 0 }
  else if c = ',' ∧ st.c1 ∧ ¬st.c2 then
    let b12 := bufW st.b1 st.ctr '\x00'
    { st with
      b1 := b12,
      table := tblSet st.table st.itr (fun m => { m with bitmapName := cstr b12 }),
      c2 := true, ctr := 0 }
  else if c = '\n' then
    let b22 := bufW st.b2 st.ctr '\x00'
    { st with
      b2 := b22,
      table := tblSet st.table st.itr (fun m => { m with bitmapName2 := cstr b22 }),
      c1 := false, c2 := false, ctr := 0,
      count := st.count + (if cstr st.b1 ≠ "" ∨ cstr b22 ≠ "" then 1 else 0),
      itr := st.itr + 1 }
  else st

/-- Second conditional chain of the `getMappingList` loop body: append the
character to whichever field buffer the comma flags select (run after
`stepA`, on the updated flags, exactly as in the source). -/
def stepB (c : Char) (st : ParseSt) : ParseSt :=
  if ¬st.c1 ∧ ¬st.c2 ∧ c ≠ '\n' then
    { st with fn := bufW st.fn st.ctr c, ctr := st.ctr + 1 }
  else if st.c1 ∧ ¬st.c2 ∧ c ≠ ',' then
    { st with b1 := bufW st.b1 st.ctr c, ctr := st.ctr + 1 }
  else if st.c1 ∧ st.c2 ∧ c ≠ ',' then
    { st with b2 := bufW st.b2 st.ctr c, ctr := st.ctr + 1 }
  else st

/-- The `do … while (1)` loop of `Storage::getMappingList` over the file's
characters: stop at the `$` sentinel, otherwise run both conditional
chains. -/
def parseMap : List Char → ParseSt → ParseSt
  | [], st => st
  | c :: cs, st => if c = '$' then st else parseMap cs (stepB c (stepA c st))

/-- `Storage::getMappingList`, given the mapping file's characters and the
previous in-memory table (entries not reached by the parse keep their old
values): parse records into the table and set `n_mapped_floors` to the
computed count. -/
def getMappingList (content : List Char) (prev : MappingList) : MappingList :=
  let st := parseMap content
    { fn := floorBuf0, b1 := nameBuf0, b2 := nameBuf0, c1 := false, c2 := false,
      ctr := 0, table := prev.map_list, itr := 0, count := 0 }
  { n_mapped_floors := (st.count : Int), map_list := st.table }

/-- File content written by `Storage::initMappingList`: 32 records
`<floorNo>,,` printed with Arduino `println`, which terminates every line
with CR LF, followed by the `$` sentinel, also via `println`. -/
def initContent : List Char :=
  (String.join ((List.range 32).map (fun i => toString (i + 1) ++ ",,\r\n")) ++
    "$\r\n").toList

/-- File content written by `Storage::commitMappingList`: one
`<floorNo>,<bitmapName>,<bitmapName2>` line per entry, terminated with a
bare `\n` via `print`, followed by the `$\n` sentinel. -/
def commitContent (t : List Mapping) : List Char :=
  (String.join (t.map (fun m =>
    m.floorNo ++ "," ++ m.bitmapName ++ "," ++ m.bitmapName2 ++ "\n")) ++
    "$\n").toList

/-- `Storage::findFromFloorNo`: linear scan of the 32 entries for an exact
floor-number match, `none` when the counter reaches 32. -/
def findFromFloorNo (t : List Mapping) (fNo : String) : Option Nat :=
  (List.range 32).find? (fun i => (t.getD i ⟨"", "", ""⟩).floorNo == fNo)

/-- `Storage::setFloorMapping`: resolve the floor number and overwrite the
entry's two bitmap-name slots, or return `-1` leaving the table untouched. -/
def setFloorMapping (fNo n1 n2 : String) (ml : MappingList) : Int × MappingList :=
  match findFromFloorNo ml.map_list fNo with
  | none => (-1, ml)
  | some i =>
    (0, { ml with
          map_list := tblSet ml.map_list i
            (fun m => { m with bitmapName := n1, bitmapName2 := n2 }) })

/-- `Storage::getFloorMapping`: resolve the floor number and return the two
bitmap-name slots, or fail. -/
def getFloorMapping (fNo : String) (ml : MappingList) : Option (String × String) :=
  match findFromFloorNo ml.map_list fNo with
  | none => none
  | some i =>
    some ((ml.map_list.getD i ⟨"", "", ""⟩).bitmapName,
          (ml.map_list.getD i ⟨"", "", ""⟩).bitmapName2)

/-- The in-memory table of the fresh `Storage` singleton before any load:
static zero-initialized character arrays (empty strings) and the default
`n_mapped_floors = -1` of `Storage.h`. -/
def initialMappingList : MappingList :=
  { n_mapped_floors := -1, map_list := List.replicate 32 ⟨"", "", ""⟩ }

/-- The table obtained by `initMappingList` followed by `getMappingList`. -/
def tableAfterInitLoad : MappingList := getMappingList initContent initialMappingList

/-- C3: `initialize` followed by `load` does not produce a blank table.
`initMappingList` writes its records with Arduino `println`, so every line
ends in CR LF, and the `getMappingList` parser treats the CR as ordinary
data: all 32 entries do carry floor numbers `1`..`32` and empty first
slots, but every second bitmap slot holds the one-character string `"\r"`
and `n_mapped_floors` comes out as 32 instead of 0. -/
theorem initThenLoad_cr_artifact :
    tableAfterInitLoad.map_list.length = 32 ∧
    tableAfterInitLoad.map_list.map (fun m => m.floorNo) =
      (List.range 32).map (fun i => toString (i + 1)) ∧
    (tableAfterInitLoad.map_list.all (fun m => m.bitmapName == "")) = true ∧
    (tableAfterInitLoad.map_list.all (fun m => m.bitmapName2 == "\r")) = true ∧
    tableAfterInitLoad.n_mapped_floors = 32 := by
  decide

/-- Result of `setFloorMapping("05", "icon_a", "icon_b")` on the
initialized-and-loaded table. -/
def afterSet05 : Int × MappingList :=
  setFloorMapping "05" "icon_a" "icon_b" tableAfterInitLoad

/-- The table after committing and reloading that state. -/
def afterCommitReload : MappingList :=
  getMappingList (commitContent afterSet05.2.map_list) afterSet05.2

/-- C4 counterexample: after `initialize` + `load`, the claimed sequence
does not end with `getFloorMapping("05")` returning
`("icon_a", "icon_b")` and a mapped-floor count of 1. -/
theorem setMapping05_sequence_not_as_claimed :
    ¬ (getFloorMapping "05" afterCommitReload = some ("icon_a", "icon_b") ∧
       afterCommitReload.n_mapped_floors = 1) := by
  decide

/-- C4 amended: the initialized table numbers its floors `"1"`..`"32"`
without zero padding, so `setFloorMapping("05", …)` fails with `-1` and
changes nothing; after commit and reload `getFloorMapping("05")` still
fails, and `n_mapped_floors` is 32 because every entry's second slot holds
the CR artifact left by initialization (see C3). -/
theorem setMapping05_sequence_actual :
    afterSet05.1 = -1 ∧ afterSet05.2 = tableAfterInitLoad ∧
    getFloorMapping "05" afterCommitReload = none ∧
    afterCommitReload.n_mapped_floors = 32 := by
  decide

/-- C9: `setFloorMapping` on a floor code that matches no entry returns
`-1` and returns the table — all 32 entries and the derived count —
exactly as it was. -/
theorem setFloorMapping_notFound_unchanged (ml : MappingList) (fNo n1 n2 : String)
    (h : ∀ i, i < 32 → (ml.map_list.getD i ⟨"", "", ""⟩).floorNo ≠ fNo) :
    setFloorMapping fNo n1 n2 ml = (-1, ml) := by
  unfold setFloorMapping findFromFloorNo
  have hnone :
      (List.range 32).find?
        (fun i => (ml.map_list.getD i ⟨"", "", ""⟩).floorNo == fNo) = none := by
    apply List.find?_eq_none.mpr
    intro i hi
    have hi32 : i < 32 := List.mem_range.mp hi
    simpa using h i hi32
  rw [hnone]

/-- Witness for C9: floor code `"99"` on the zero-initialized table. -/
theorem setFloorMapping_notFound_witness :
    (∀ i, i < 32 →
      (initialMappingList.map_list.getD i ⟨"", "", ""⟩).floorNo ≠ "99") ∧
    setFloorMapping "99" "icon_a" "icon_b" initialMappingList =
      (-1, initialMappingList) :=
  ⟨by decide,
   setFloorMapping_notFound_unchanged initialMappingList "99" "icon_a" "icon_b"
     (by decide)⟩

/-- Existence check `SD.exists` over the modelled storage volume (an
association list from path to byte content). -/
def fsExists (fs : List (String × List Nat)) (p : String) : Bool :=
  (fs.lookup p).isSome

/-- `SD.remove`: drop the file at a path. -/
def fsRemove (fs : List (String × List Nat)) (p : String) : List (String × List Nat) :=
  fs.filter (fun e => e.1 != p)

/-- Replace (or create) the file at a path. -/
def fsSet (fs : List (String × List Nat)) (p : String) (v : List Nat) :
    List (String × List Nat) :=
  (p, v) :: fsRemove fs p

/-- Looking up a path just written returns the written content. -/
theorem lookup_fsSet (fs : List (String × List Nat)) (p : String) (v : List Nat) :
    (fsSet fs p v).lookup p = some v := by
  simp [fsSet, List.lookup]

/-- A removed path no longer resolves. -/
theorem lookup_fsRemove (fs : List (String × List Nat)) (p : String) :
    (fsRemove fs p).lookup p = none := by
  induction fs with
  | nil => rfl
  | cons e t ih =>
    by_cases h : e.1 = p
    · simp [fsRemove, List.filter, h] at ih ⊢
      simpa [h] using ih
    · simp only [fsRemove, List.filter] at ih ⊢
      have hb : (e.1 != p) = true := by simpa using h
      rw [hb]
      simpa [List.lookup, show (p == e.1) = false from by simpa using fun hh => h hh.symm]
        using ih

/-- The session of `Storage`: the modelled volume plus the single open
handle — the name the file was opened under and its cursor position
(`none` when no file is open or the last open failed). -/
structure Sess where
  fs : List (String × List Nat)
  cur : Option (String × Nat)
deriving DecidableEq

/-- `Storage::fileOpenToWrite`: when `overwrite` is set and the path
exists, the file is removed first; the previous handle is closed and the
path is opened with `FILE_WRITE` (`O_RDWR | O_CREAT | O_AT_END` in the
SdFat library): a missing file is created empty, and the cursor is placed
at the current end of file — the source relies on exactly this append
behaviour in `writeCompressedBlock`, which reopens the companion file for
every 8-byte record. -/
def fileOpenToWrite (p : String) (overwrite : Bool) (s : Sess) : Bool × Sess :=
  let fs1 := if fsExists s.fs p && overwrite then fsRemove s.fs p else s.fs
  match fs1.lookup p with
  | some content => (true, { fs := fs1, cur := some (p, content.length) })
  | none => (true, { fs := fsSet fs1 p [], cur := some (p, 0) })

/-- `Storage::fileWriteData`: fail with `-1` when nothing is open,
otherwise write the bytes at the cursor and advance it. -/
def fileWriteData (d : List Nat) (s : Sess) : Int × Sess :=
  match s.cur with
  | none => (-1, s)
  | some (p, pos) =>
    let content := (s.fs.lookup p).getD []
    let content2 := content.take pos ++ d ++ content.drop (pos + d.length)
    ((d.length : Int), { fs := fsSet s.fs p content2, cur := some (p, pos + d.length) })

/-- A session whose volume holds a two-byte file `f` and no open handle. -/
def sessPre : Sess := { fs := [("f", [1, 2])], cur := none }

/-- C6 counterexample: `fileOpenToWrite` with `overwrite = false` on an
existing file does not leave the handle on an empty file at offset 0 — it
opens at end of file, and the byte written immediately afterwards lands
after the pre-existing content `[1, 2]`. -/
theorem openForWrite_appends_cex :
    (fileOpenToWrite "f" false sessPre).2.cur = some ("f", 2) ∧
    ¬ (fileOpenToWrite "f" false sessPre).2.cur = some ("f", 0) ∧
    (fileWriteData [9] (fileOpenToWrite "f" false sessPre).2).2.fs.lookup "f" =
      some [1, 2, 9] := by
  decide

/-- C6 amended: after `fileOpenToWrite p ow` followed by one write, the
file holds the written bytes appended to the pre-existing content when
`ow` is false and the path existed, and the written bytes alone otherwise
(overwrite deletes the file first; a missing file is created empty), so
only in the latter cases does writing start at offset 0. -/
theorem openForWrite_content_after_write (s : Sess) (p : String) (ow : Bool)
    (d : List Nat) :
    (fileWriteData d (fileOpenToWrite p ow s).2).2.fs.lookup p =
      some ((if ow || !(fsExists s.fs p) then []
             else (s.fs.lookup p).getD []) ++ d) := by
  cases hE : s.fs.lookup p with
  | none =>
    have hx : fsExists s.fs p = false := by simp [fsExists, hE]
    cases ow <;>
      simp [fileOpenToWrite, fileWriteData, hx, hE, lookup_fsSet]
  | some c =>
    have hx : fsExists s.fs p = true := by simp [fsExists, hE]
    cases ow with
    | true =>
      simp [fileOpenToWrite, fileWriteData, hx, lookup_fsRemove, lookup_fsSet]
    | false =>
      have hdrop : c.drop (c.length + d.length) = [] := by
        apply List.drop_eq_nil_of_le
        omega
      simp [fileOpenToWrite, fileWriteData, hx, hE, lookup_fsSet, hdrop]

/-- File-system actions a call may issue on the open handle. -/
inductive FsEv where
  | closeEv : FsEv
  | openEv : String → FsEv
  | seekEv : Nat → FsEv
deriving DecidableEq

/-- The name `file.getName(filepath_open, 20)` stores for a handle that
was opened under path `p`: the SdFat library returns the file's base name
only — the part after the last directory separator — truncated to fit the
20-byte buffer (19 characters plus the terminator). -/
def handleName (p : String) : String :=
  String.mk (((p.toList.reverse.takeWhile (fun c => c ≠ '/')).reverse).take 19)

/-- `Storage::fileOpenToRead`, with the actions it issues.  The source
compares the requested path with `file.getName` of the currently open
file — the base name, via `handleName`, of the path the handle was opened
under; an unopened handle yields the empty string.  On a match the handle
is kept and only rewound to offset 0 (on an unopened handle the seek is a
no-op); otherwise the old handle is closed and the path opened, failing
when it does not exist. -/
def fileOpenToRead (p : String) (s : Sess) : Bool × Sess × List FsEv :=
  match s.cur with
  | some (q, _) =>
    if handleName q = p then
      (true, { s with cur := some (q, 0) }, [FsEv.seekEv 0])
    else
      match s.fs.lookup p with
      | some _ =>
        (true, { fs := s.fs, cur := some (p, 0) }, [FsEv.closeEv, FsEv.openEv p])
      | none => (false, { fs := s.fs, cur := none }, [FsEv.closeEv])
  | none =>
    if "" = p then
      (true, s, [FsEv.seekEv 0])
    else
      match s.fs.lookup p with
      | some _ =>
        (true, { fs := s.fs, cur := some (p, 0) }, [FsEv.closeEv, FsEv.openEv p])
      | none => (false, { fs := s.fs, cur := none }, [FsEv.closeEv])

/-- A volume holding the companion file `/enc/img.cbm`, nothing open. -/
def sessEnc : Sess := { fs := [("/enc/img.cbm", [1])], cur := none }

/-- C7 counterexample: for the path `/enc/img.cbm` — a path this firmware
itself creates and reads back — an immediately repeated `fileOpenToRead`
does issue the close/open pair: the stored handle name is the base name
`img.cbm` returned by `file.getName`, which differs from the requested
path, so the same-file branch is never taken. -/
theorem openForRead_dirPath_reopens :
    ((fileOpenToRead "/enc/img.cbm" sessEnc).1 = true) ∧
    (fileOpenToRead "/enc/img.cbm"
        (fileOpenToRead "/enc/img.cbm" sessEnc).2.1).2.2 =
      [FsEv.closeEv, FsEv.openEv "/enc/img.cbm"] := by
  decide

/-- C7 amended: for a bare file name — no directory separator, at most 19
characters, so that the stored handle name equals the path — after a
successful `fileOpenToRead p`, an immediately repeated `fileOpenToRead p`
succeeds while issuing no close and no open, only the rewind: the cursor
is reset to offset 0 and the session (volume and handle) is returned
exactly as the first call left it.  For a path with a directory component
the source closes and reopens instead (see the counterexample). -/
theorem openForRead_reuse (p : String) (s : Sess) (hp : p ≠ "")
    (hname : handleName p = p)
    (h : (fileOpenToRead p s).1 = true) :
    fileOpenToRead p (fileOpenToRead p s).2.1 =
      (true, (fileOpenToRead p s).2.1, [FsEv.seekEv 0]) ∧
    ∃ q, (fileOpenToRead p s).2.1.cur = some (q, 0) := by
  have hne : ¬("" = p) := fun he => hp he.symm
  cases hcur : s.cur with
  | none =>
    cases hl : s.fs.lookup p with
    | none =>
      exfalso
      simp [fileOpenToRead, hcur, hne, hl] at h
    | some c =>
      constructor
      · simp [fileOpenToRead, hcur, hne, hl, hname]
      · exact ⟨p, by simp [fileOpenToRead, hcur, hne, hl]⟩
  | some qp =>
    obtain ⟨q0, pos⟩ := qp
    by_cases hq : handleName q0 = p
    · constructor
      · simp [fileOpenToRead, hcur, hq]
      · exact ⟨q0, by simp [fileOpenToRead, hcur, hq]⟩
    · cases hl : s.fs.lookup p with
      | none =>
        exfalso
        simp [fileOpenToRead, hcur, hq, hl] at h
      | some c =>
        constructor
        · simp [fileOpenToRead, hcur, hq, hl, hname]
        · exact ⟨p, by simp [fileOpenToRead, hcur, hq, hl]⟩

/-- Witness volume for the C7 amended theorem: file `a`, nothing open. -/
def sessRead : Sess := { fs := [("a", [7])], cur := none }

/-- Witness for the C7 amended theorem at the bare name `a`. -/
theorem openForRead_reuse_witness :
    ("a" ≠ "" ∧ handleName "a" = "a" ∧ (fileOpenToRead "a" sessRead).1 = true) ∧
    (fileOpenToRead "a" (fileOpenToRead "a" sessRead).2.1 =
       (true, (fileOpenToRead "a" sessRead).2.1, [FsEv.seekEv 0]) ∧
     ∃ q, (fileOpenToRead "a" sessRead).2.1.cur = some (q, 0)) :=
  ⟨⟨by decide, by decide, by decide⟩,
   openForRead_reuse "a" sessRead (by decide) (by decide) (by decide)⟩

/-- `Storage::fileSize`: `return false` (that is, 0) when no file is open,
otherwise the open file's size. -/
def fileSize (s : Sess) : Nat :=
  match s.cur with
  | none => 0
  | some (p, _) => ((s.fs.lookup p).getD []).length

/-- C10: with no open handle `fileSize` returns 0, the very value it
returns for an open empty file, so the two conditions are
indistinguishable through `fileSize` alone. -/
theorem fileSize_no_handle_ambiguous (fs fs2 : List (String × List Nat))
    (p : String) (pos : Nat) :
    fileSize { fs := fs, cur := none } = 0 ∧
    fileSize { fs := fsSet fs2 p [], cur := some (p, pos) } = 0 ∧
    fileSize { fs := fs, cur := none } =
      fileSize { fs := fsSet fs2 p [], cur := some (p, pos) } := by
  simp [fileSize, lookup_fsSet]

/-- A byte of an open file at an absolute offset (`file.seek` + `file.read`);
every read the cache path performs on its inputs is within the file. -/
def byteAt (c : List Nat) (i : Nat) : Nat := c.getD i 0

/-- `_readDIB`: the 2-byte little-endian header-size discriminator at
offset `0x0E`. -/
def readDIB (c : List Nat) : Nat := byteAt c 14 + 256 * byteAt c 15

/-- A 4-byte little-endian field. -/
def le32 (c : List Nat) (off : Nat) : Nat :=
  byteAt c off + 256 * byteAt c (off + 1) + 65536 * byteAt c (off + 2) +
    16777216 * byteAt c (off + 3)

/-- Reinterpret a 32-bit little-endian value as the signed `int32_t` the
source accumulates it into. -/
def asInt32 (n : Nat) : Int :=
  if n < 2147483648 then (n : Int) else (n : Int) - 4294967296

/-- `_readWidth`: the signed width at `0x12`, `-1` for an unrecognized
header. -/
def readWidth (c : List Nat) : Int :=
  if readDIB c = 40 then asInt32 (le32 c 18) else -1

/-- `_readHeight`: the signed height at `0x16` with its sign discarded,
`-1` for an unrecognized header. -/
def readHeight (c : List Nat) : Int :=
  if readDIB c = 40 then
    (let h := asInt32 (le32 c 22); if h < 0 then -h else h)
  else -1

/-- `_readBitsPerPixel`: the byte at `0x1C`.  The source has no `else`
return for an unrecognized header (undefined value there); this model is
only applied to DIB-40 inputs. -/
def readBitsPerPixel (c : List Nat) : Nat :=
  if readDIB c = 40 then byteAt c 28 else 0

/-- `_readCompressionMethod`: the byte at `0x1E`, same caveat as
`readBitsPerPixel`. -/
def readCompressionMethod (c : List Nat) : Nat :=
  if readDIB c = 40 then byteAt c 30 else 0

/-- Companion path derived in `Storage::readBitmap`: the original name cut
at its first dot (`strtok(filename_encoded, ".")`), the fixed `.cbm`
extension, inside the reserved `/enc/` subdirectory. -/
def encName (fname : String) : String :=
  "/enc/" ++ String.mk (fname.toList.takeWhile (fun c => c ≠ '.')) ++ ".cbm"

/-- The 8-byte record `Storage::writeCompressedBlock` emits:
`row`, `start`, `end` as little-endian `uint16_t`, then two `0xFF` padding
bytes. -/
def recordBytes (row s e : Nat) : List Nat :=
  [row % 256, (row / 256) % 256, s % 256, (s / 256) % 256,
   e % 256, (e / 256) % 256, 255, 255]

/-- Append bytes to a file, creating it when absent: the effect of
`fileOpenToWrite` without overwrite (`FILE_WRITE` opens at end of file)
followed by one `fileWriteData`, as `writeCompressedBlock` performs for
every record. -/
def fsAppend (fs : List (String × List Nat)) (p : String) (bs : List Nat) :
    List (String × List Nat) :=
  fsSet fs p (((fs.lookup p).getD []) ++ bs)

/-- The storage volume as the cache sees it: the files plus whether the
reserved `enc` directory exists. -/
structure DevFS where
  files : List (String × List Nat)
  encDir : Bool
deriving DecidableEq

/-- Write one row's emitted records to the companion file, in order: one
`writeCompressedBlock` append per record. -/
def appendRecs (encPath : String) (r : Nat) (recs : List (Nat × Nat))
    (files : List (String × List Nat)) : List (String × List Nat) :=
  recs.foldl (fun fsa sr => fsAppend fsa encPath (recordBytes r sr.1 sr.2)) files

/-- The row loop of `Storage::encodeBitmap` over the volume: for each row,
run the per-row scanline loop (`encodeRowAux`) on that row's loaded buffer
(`rowbuf r`, the `readMono40` output including whatever the allocator left
past the file bytes) and append one `recordBytes` block per emitted record
to the companion file; a scan that leaves the row buffer stops the encode
with the records emitted so far (the source would read adjacent memory
there). -/
def encodeRows (encPath : String) (rowbuf : Nat → List Nat) (width fuel : Nat) :
    List Nat → List (String × List Nat) → List (String × List Nat) × EncStatus
  | [], files => (files, EncStatus.ok)
  | r :: rs, files =>
    match encodeRowAux (rowbuf r) width fuel fuel 0 0 [] with
    | (recs, EncStatus.ok) =>
      encodeRows encPath rowbuf width fuel rs (appendRecs encPath r recs files)
    | (recs, st) => (appendRecs encPath r recs files, st)

/-- `Storage::encodeBitmap`: encode rows `0 .. height - 1`. -/
def encodeBitmap (encPath : String) (rowbuf : Nat → List Nat)
    (width height fuel : Nat) (files : List (String × List Nat)) :
    List (String × List Nat) × EncStatus :=
  encodeRows encPath rowbuf width fuel (List.range height) files

/-- `Storage::readBitmap` as it acts on the volume: parse the header of
the open file; for supported monochrome (1 bit per pixel, compression 0)
derive the companion path, return unchanged when the companion already
exists (cache hit), otherwise create the `enc` directory when absent and
run the encoder once; unsupported formats change nothing. -/
def readBitmap (fname : String) (rowbuf : Nat → List Nat) (fuel : Nat)
    (d : DevFS) : DevFS :=
  let c := (d.files.lookup fname).getD []
  if readBitsPerPixel c = 1 ∧ readCompressionMethod c = 0 then
    let ep := encName fname
    if (d.files.lookup ep).isSome then d
    else
      let d1 := if d.encDir then d else { d with encDir := true }
      { d1 with
        files := (encodeBitmap ep rowbuf (readWidth c).toNat (readHeight c).toNat
          fuel d1.files).1 }
  else d

/-- `Storage::getBitmap` as it acts on the volume: fail (volume unchanged)
when the path cannot be opened, otherwise run `readBitmap`. -/
def getBitmap (fname : String) (rowbuf : Nat → List Nat) (fuel : Nat)
    (d : DevFS) : DevFS × Bool :=
  if (d.files.lookup fname).isSome then (readBitmap fname rowbuf fuel d, true)
  else (d, false)

/-- A 62-byte supported monochrome BMP: DIB discriminator 40, pixel-data
offset 62, width 8, height 0, 1 bit per pixel, compression 0. -/
def bmpH0 : List Nat :=
  (List.range 62).map (fun i =>
    if i = 0 then 66 else if i = 1 then 77 else
    if i = 10 then 62 else if i = 14 then 40 else
    if i = 18 then 8 else if i = 28 then 1 else 0)

/-- A volume holding only the source bitmap, no `enc` directory yet. -/
def devPre : DevFS := { files := [("img.bmp", bmpH0)], encDir := false }

/-- The volume after the first `getBitmap` call on `img.bmp`. -/
def devAfterFirst : DevFS × Bool := getBitmap "img.bmp" (fun _ => []) 64 devPre

/-- C8 counterexample: on this supported monochrome bitmap (DIB 40, 1 bit
per pixel, compression 0, height 0) the first `getBitmap` call emits no
record, so it never opens the companion file and `/enc/img.cbm` does not
exist afterwards; the second call therefore does not find a companion and
re-runs the encoder instead of taking the cache-hit path. -/
theorem getBitmap_heightZero_no_companion :
    readDIB bmpH0 = 40 ∧ readBitsPerPixel bmpH0 = 1 ∧
    readCompressionMethod bmpH0 = 0 ∧ readWidth bmpH0 = 8 ∧
    devAfterFirst.2 = true ∧
    devAfterFirst.1.files.lookup (encName "img.bmp") = none ∧
    getBitmap "img.bmp" (fun _ => []) 64 devAfterFirst.1 = devAfterFirst := by
  decide

/-- When the companion file already exists, `readBitmap` performs no
write: the cache-hit branch returns the volume exactly as it was. -/
theorem readBitmap_cacheHit_noop (d : DevFS) (fname : String)
    (rowbuf : Nat → List Nat) (fuel : Nat)
    (h : (d.files.lookup (encName fname)).isSome = true) :
    readBitmap fname rowbuf fuel d = d := by
  unfold readBitmap
  by_cases hs : readBitsPerPixel ((d.files.lookup fname).getD []) = 1 ∧
      readCompressionMethod ((d.files.lookup fname).getD []) = 0
  · simp [hs, h]
  · simp [hs]

/-- Whether the encoder emits at least one record before it stops: a row
ending with `EncStatus.ok` contributes its records and lets the loop
continue; any other row contributes its records and stops the encode, as
in `encodeRows`. -/
def emittedAny (rowbuf : Nat → List Nat) (width fuel : Nat) : List Nat → Bool
  | [] => false
  | r :: rs =>
    match encodeRowAux (rowbuf r) width fuel fuel 0 0 [] with
    | (recs, EncStatus.ok) => !recs.isEmpty || emittedAny rowbuf width fuel rs
    | (recs, _) => !recs.isEmpty

/-- After writing a row's records, the companion file exists exactly when
it already existed or at least one record was written. -/
theorem lookup_appendRecs (encPath : String) (r : Nat) (recs : List (Nat × Nat))
    (files : List (String × List Nat)) :
    ((appendRecs encPath r recs files).lookup encPath).isSome =
      ((files.lookup encPath).isSome || !recs.isEmpty) := by
  induction recs generalizing files with
  | nil => simp [appendRecs]
  | cons sr rest ih =>
    have hstep : appendRecs encPath r (sr :: rest) files =
        appendRecs encPath r rest (fsAppend files encPath (recordBytes r sr.1 sr.2)) :=
      rfl
    rw [hstep, ih]
    simp [fsAppend, lookup_fsSet]

/-- After the encoder's row loop, the companion file exists exactly when
it already existed or the encoder emitted at least one record before
stopping. -/
theorem lookup_encodeRows (encPath : String) (rowbuf : Nat → List Nat)
    (width fuel : Nat) (rows : List Nat) (files : List (String × List Nat)) :
    (((encodeRows encPath rowbuf width fuel rows files).1.lookup encPath).isSome) =
      ((files.lookup encPath).isSome || emittedAny rowbuf width fuel rows) := by
  induction rows generalizing files with
  | nil => simp [encodeRows, emittedAny]
  | cons r rs ih =>
    rw [encodeRows, emittedAny]
    cases hrow : encodeRowAux (rowbuf r) width fuel fuel 0 0 [] with
    | mk recs st =>
      cases st with
      | ok =>
        simp only
        rw [ih, lookup_appendRecs]
        cases hfe : (files.lookup encPath).isSome <;> simp
      | oob => simp only; rw [lookup_appendRecs]
      | fuelOut => simp only; rw [lookup_appendRecs]

/-- C8 amended: for a supported monochrome source, a `readBitmap` call
leaves the companion file present exactly when it was already present or
the encoder emitted at least one record before stopping — so the first
call materializes `/enc/<stem>.cbm` precisely in the at-least-one-record
case — and whenever the companion is already present the call performs no
write at all: the volume is returned unchanged and the caller receives
header metadata only (cache hit). -/
theorem getBitmap_companion_cache (d : DevFS) (fname : String)
    (rowbuf : Nat → List Nat) (fuel : Nat)
    (hsupp : readBitsPerPixel ((d.files.lookup fname).getD []) = 1 ∧
             readCompressionMethod ((d.files.lookup fname).getD []) = 0) :
    (((readBitmap fname rowbuf fuel d).files.lookup (encName fname)).isSome =
      ((d.files.lookup (encName fname)).isSome ||
        emittedAny rowbuf (readWidth ((d.files.lookup fname).getD [])).toNat fuel
          (List.range (readHeight ((d.files.lookup fname).getD [])).toNat))) ∧
    ((d.files.lookup (encName fname)).isSome = true →
      readBitmap fname rowbuf fuel d = d) := by
  constructor
  · by_cases hex : (d.files.lookup (encName fname)).isSome = true
    · rw [readBitmap_cacheHit_noop d fname rowbuf fuel hex, hex]
      simp
    · have hex2 : (d.files.lookup (encName fname)).isSome = false :=
        Bool.eq_false_iff.mpr hex
      have hfiles : (readBitmap fname rowbuf fuel d).files =
          (encodeBitmap (encName fname) rowbuf
            (readWidth ((d.files.lookup fname).getD [])).toNat
            (readHeight ((d.files.lookup fname).getD [])).toNat fuel d.files).1 := by
        unfold readBitmap
        cases hdir : d.encDir <;> simp [hsupp, hex2, hdir]
      rw [hfiles]
      unfold encodeBitmap
      rw [lookup_encodeRows, hex2]
  · exact readBitmap_cacheHit_noop d fname rowbuf fuel

/-- A 66-byte supported monochrome BMP like `bmpH0` but with height 1 and
one all-set pixel row (`0xFF` plus padding) at the pixel-data offset. -/
def bmpH1 : List Nat :=
  (List.range 66).map (fun i =>
    if i = 0 then 66 else if i = 1 then 77 else
    if i = 10 then 62 else if i = 14 then 40 else
    if i = 18 then 8 else if i = 22 then 1 else
    if i = 28 then 1 else if i = 62 then 255 else 0)

/-- Witness volume: the height-1 bitmap alone, no companion yet. -/
def devOne : DevFS := { files := [("img2.bmp", bmpH1)], encDir := false }

/-- Row buffer the witness encode reads: the row byte `0xFF` plus an
all-clear uninitialized trailing byte. -/
def rowbufOne : Nat → List Nat := fun _ => [255, 0]

/-- Witness for the C8 amended theorem at the concrete volume `devOne`:
the format hypothesis holds, the theorem applies, and at this input the
encoder does emit a record, so the companion is materialized by the first
call. -/
theorem getBitmap_companion_cache_witness :
    (readBitsPerPixel ((devOne.files.lookup "img2.bmp").getD []) = 1 ∧
     readCompressionMethod ((devOne.files.lookup "img2.bmp").getD []) = 0) ∧
    ((((readBitmap "img2.bmp" rowbufOne 64 devOne).files.lookup
        (encName "img2.bmp")).isSome =
      ((devOne.files.lookup (encName "img2.bmp")).isSome ||
        emittedAny rowbufOne
          (readWidth ((devOne.files.lookup "img2.bmp").getD [])).toNat 64
          (List.range
            (readHeight ((devOne.files.lookup "img2.bmp").getD [])).toNat))) ∧
     ((devOne.files.lookup (encName "img2.bmp")).isSome = true →
       readBitmap "img2.bmp" rowbufOne 64 devOne = devOne)) ∧
    (((readBitmap "img2.bmp" rowbufOne 64 devOne).files.lookup
        (encName "img2.bmp")).isSome = true) :=
  ⟨by decide,
   getBitmap_companion_cache devOne "img2.bmp" rowbufOne 64 (by decide),
   by decide⟩

end Storage
